import Mathlib

/-!
Verification of the `Queue` data structure and the entry point of
`src/src/main.rs`.

The Rust source defines (inside `fn main`) a struct

  pub struct Queue { older: Vec<char>, younger: Vec<char> }

with methods `push`, `pop`, `is_empty`, `split` and a constructor `new`.
A `Vec<char>` is modelled as a `List Char`, with the vector's back
(where `Vec::push` appends and `Vec::pop` removes) at the end of the list.
The entry point's observable behaviour (standard output and exit code) is
modelled as a pure value.
-/

namespace RustStructs

/-- The `Queue` struct from `src/src/main.rs`: `older` holds older
elements eldest-last, `younger` holds younger elements youngest-last. -/
structure Queue where
  older : List Char
  younger : List Char
deriving Repr, DecidableEq

/-- `Vec::pop`: remove and return the last element (`None` on an empty
vector). Returns the popped element together with the remaining vector. -/
def vecPop (l : List Char) : Option Char × List Char :=
  (l.getLast?, l.dropLast)

/-- `Queue::push`: `self.younger.push(c)` — append `c` to the back of
`younger`. -/
def Queue.push (q : Queue) (c : Char) : Queue :=
  { q with younger := q.younger ++ [c] }

/-- `Queue::pop`: if `older` is empty and `younger` is empty, return
`None`; if `older` is empty but `younger` is not, swap `older` and
`younger` and reverse (the new) `older` in place; finally `self.older.pop()`. -/
def Queue.pop (q : Queue) : Option Char × Queue :=
  if q.older.isEmpty then
    if q.younger.isEmpty then
      (none, q)
    else
      let older := q.younger.reverse
      let r := vecPop older
      (r.1, ⟨r.2, []⟩)
  else
    let r := vecPop q.older
    (r.1, ⟨r.2, q.younger⟩)

/-- `Queue::is_empty`: `self.older.is_empty() && self.younger.is_empty()`. -/
def Queue.is_empty (q : Queue) : Bool :=
  q.older.isEmpty && q.younger.isEmpty

/-- `Queue::split`: `(self.older, self.younger)` — consumes the queue and
returns the two internal vectors as stored. -/
def Queue.split (q : Queue) : List Char × List Char :=
  (q.older, q.younger)

/-- `Queue::new`: `Queue { older: Vec::new(), younger: Vec::new() }`. -/
def Queue.new : Queue :=
  ⟨[], []⟩

/-- Total number of elements stored in the queue. -/
def Queue.size (q : Queue) : Nat :=
  q.older.length + q.younger.length

/-- Perform `n` pops in sequence, collecting each pop's result. -/
def Queue.popN : Nat → Queue → List (Option Char) × Queue
  | 0, q => ([], q)
  | n + 1, q =>
    let r := q.pop
    let rest := Queue.popN n r.2
    (r.1 :: rest.1, rest.2)

/-- Push every element of `cs`, in order, onto `q`. -/
def Queue.pushAll (q : Queue) : List Char → Queue
  | [] => q
  | c :: cs => (q.push c).pushAll cs

/-- Pop repeatedly (with fuel `n`) until a pop returns `None`, collecting
the popped values. -/
def Queue.drainAux : Nat → Queue → List Char
  | 0, _ => []
  | n + 1, q =>
    match q.pop with
    | (none, _) => []
    | (some c, q') => c :: Queue.drainAux n q'

/-- The logical contents of the queue, front to back: the sequence of
values successive pops return. -/
def Queue.logicalContents (q : Queue) : List Char :=
  Queue.drainAux q.size q

/-- The abstraction of a queue state to its logical contents, read off the
representation directly. -/
def Queue.toList (q : Queue) : List Char :=
  q.older.reverse ++ q.younger

/-- The spec's description of `pop`, written from its words: if `older` is
non-empty, remove and return its last element; if `older` is empty but
`younger` is non-empty, reverse `younger`, swap it into `older`, clear
`younger`, then remove and return `older`'s last element; if both are
empty, return the empty result. Stated separately from `Queue.pop` so the
code can be proved to refine it. -/
def Queue.popSpec (q : Queue) : Option Char × Queue :=
  if q.older ≠ [] then
    (q.older.getLast?, ⟨q.older.dropLast, q.younger⟩)
  else if q.younger ≠ [] then
    ((q.younger.reverse).getLast?, ⟨(q.younger.reverse).dropLast, []⟩)
  else
    (none, q)

/-- Queue states reachable from the empty queue by pushes and pops. -/
inductive Queue.Reachable : Queue → Prop
  | new : Queue.Reachable Queue.new
  | push (q : Queue) (c : Char) : Queue.Reachable q → Queue.Reachable (q.push c)
  | pop (q : Queue) : Queue.Reachable q → Queue.Reachable (q.pop).2

/-! The remaining statements `fn main` executes, beyond the `println!` and
the two `Queue` sessions: the `GrayscaleMap`, `Broom`/`chop`, `Bounds` and
`Extrema`/`find_extrema` blocks each end in assertions, and a failing
assertion would panic and change the program's exit code, so they are all
embedded below. Tutorial statements with no assertion and no output (type
definitions, the generic-queue pushes of `"CAD"`, `0.74`, …) cannot affect
stdout or the exit code and have no checks to model. -/

/-- The `GrayscaleMap` struct: `pixels: Vec<u8>`, `size: (usize, usize)`. -/
structure GrayscaleMap where
  pixels : List Nat
  size : Nat × Nat
deriving Repr, DecidableEq

/-- `let image = GrayscaleMap { pixels: vec![0; width * height], size: (width, height) }`
with `width = 1024`, `height = 576`. -/
def image : GrayscaleMap :=
  ⟨List.replicate (1024 * 576) 0, (1024, 576)⟩

/-- `assert_eq!(image.size, (1024, 576)); assert_eq!(image.pixels.len(), 1024 * 576);` -/
def grayscaleAsserts : Bool :=
  (image.size == (1024, 576)) && (image.pixels.length == 1024 * 576)

/-- The `BroomIntent` enum. -/
inductive BroomIntent where
  | FetchWater
  | DumpWater
deriving Repr, DecidableEq

/-- The `Broom` struct. Its `position: (f32, f32, f32)` field only ever
holds the exact integral literals `(100.0, 200.0, 0.0)` and is copied by
struct update, never computed with, so it is modelled by exact integers. -/
structure Broom where
  name : String
  height : Nat
  health : Nat
  position : Int × Int × Int
  intent : BroomIntent

/-- `fn chop(b: Broom) -> (Broom, Broom)`: `broom1` is `b` with halved
height (`u32` division), `broom2` clones `broom1`, then `" I"` / `" II"`
are appended to their names. -/
def chop (b : Broom) : Broom × Broom :=
  let broom1 : Broom := { b with height := b.height / 2 }
  let broom2 : Broom := { broom1 with name := broom1.name }
  let broom1 : Broom := { broom1 with name := broom1.name ++ " I" }
  let broom2 : Broom := { broom2 with name := broom2.name ++ " II" }
  (broom1, broom2)

/-- `let hokey = Broom { name: "Hokey".to_string(), height: 60, health: 100,
position: (100.0, 200.0, 0.0), intent: BroomIntent::FetchWater }`. -/
def hokey : Broom :=
  ⟨"Hokey", 60, 100, (100, 200, 0), BroomIntent.FetchWater⟩

/-- The four `assert_eq!` checks on `chop(hokey)`'s names and healths. -/
def broomAsserts : Bool :=
  let p := chop hokey
  (p.1.name == "Hokey I") && (p.1.health == 100) &&
    (p.2.name == "Hokey II") && (p.2.health == 100)

/-- The tuple-like struct `Bounds(usize, usize)` (element names follow the
source's own desugaring `fn Bounds(elem0: usize, elem1: usize)`). -/
structure Bounds where
  elem0 : Nat
  elem1 : Nat
deriving Repr, DecidableEq

/-- `let image_bounds = Bounds(1024, 768);`. -/
def image_bounds : Bounds :=
  ⟨1024, 768⟩

/-- `assert_eq!(image_bounds.0 * image_bounds.1, 786432);` — `usize`
arithmetic, far below any overflow. -/
def boundsAsserts : Bool :=
  (image_bounds.elem0 * image_bounds.elem1) == 786432

/-- The first `Queue` session (source lines 216–238): push `'0'`, `'1'`;
pop thrice around a push of `'∞'`; pop the empty queue; the `is_empty`
checks around a push of `'☉'`. -/
def queueSession1Asserts : Bool :=
  let q1 := ((Queue.mk [] []).push '0').push '1'
  let r1 := q1.pop
  let r2 := (r1.2.push '∞').pop
  let r3 := r2.2.pop
  let r4 := r3.2.pop
  (r1.1 == some '0') && (r2.1 == some '1') && (r3.1 == some '∞') &&
    (r4.1 == none) && r4.2.is_empty && !(r4.2.push '☉').is_empty

/-- The second `Queue` session (source lines 248–258): push `'P'`, `'D'`;
pop; push `'X'`; split. -/
def queueSession2Asserts : Bool :=
  let s1 := ((Queue.mk [] []).push 'P').push 'D'
  let t1 := s1.pop
  let sp := (t1.2.push 'X').split
  (t1.1 == some 'P') && (sp.1 == ['D']) && (sp.2 == ['X'])

/-- The `Extrema` struct: two `&i32` references into a slice, modelled by
the referenced values. -/
structure Extrema where
  greatest : Int
  least : Int
deriving Repr, DecidableEq

/-- `fn find_extrema(slice: &[i32]) -> Extrema`: start both fields at
`slice[0]` (indexing an empty slice would panic, hence `Option`), then for
each later element lower `least` / raise `greatest`. -/
def find_extrema : List Int → Option Extrema
  | [] => none
  | x :: xs =>
    some (xs.foldl
      (fun e v =>
        ⟨if v > e.greatest then v else e.greatest,
          if v < e.least then v else e.least⟩)
      ⟨x, x⟩)

/-- `let a = [0, -3, 0, 15, 48]; let e = find_extrema(&a);` with
`assert_eq!(*e.least, -3); assert_eq!(*e.greatest, 48);`. -/
def extremaAsserts : Bool :=
  match find_extrema [0, -3, 0, 15, 48] with
  | none => false
  | some e => (e.least == -3) && (e.greatest == 48)

/-- All assertions `fn main` executes, in program order; `main` panics
(and so changes its exit code) iff one of them fails. -/
def mainAsserts : Bool :=
  grayscaleAsserts && broomAsserts && boundsAsserts &&
    queueSession1Asserts && queueSession2Asserts && extremaAsserts

/-- Shallow model of `fn main`'s observable behaviour: the full text
written to standard output paired with the exit code. `main` prints
`Hello, world!` with a newline and then runs the assertion-bearing
statements above; assertions print nothing when they hold, and a failing
assertion would panic, which Rust reports with exit code 101. (The source
file contains transcription slips — a missing semicolon, `...`
placeholders, `pub fn new() ->` without a return type — so the file as
written does not literally build; the model embeds the statements the
spec treats as the runnable contract.) -/
def mainRun : String × Nat :=
  ("Hello, world!\n", if mainAsserts then 0 else 101)

/-! ### Abstraction lemmas -/

lemma dropLast_reverse_eq (l : List Char) : l.reverse.dropLast = l.tail.reverse := by
  have h := List.tail_reverse_eq_reverse_dropLast l.reverse
  rw [List.reverse_reverse] at h
  rw [h, List.reverse_reverse]

lemma head?_append_left {l t : List Char} (h : l ≠ []) : (l ++ t).head? = l.head? := by
  cases l with
  | nil => exact absurd rfl h
  | cons a as => rfl

lemma tail_append_left {l t : List Char} (h : l ≠ []) : (l ++ t).tail = l.tail ++ t := by
  cases l with
  | nil => exact absurd rfl h
  | cons a as => rfl

lemma Queue.push_toList (q : Queue) (c : Char) :
    (q.push c).toList = q.toList ++ [c] := by
  simp [Queue.push, Queue.toList]

lemma Queue.pop_fst (q : Queue) : (q.pop).1 = q.toList.head? := by
  rcases q with ⟨o, y⟩
  cases o with
  | nil =>
    cases y with
    | nil => rfl
    | cons a ys =>
      simp [Queue.pop, Queue.toList, vecPop, List.getLast?_reverse]
  | cons b os =>
    simp only [Queue.pop, Queue.toList, vecPop, List.isEmpty_cons]
    rw [if_neg (by simp), head?_append_left (by simp), ← List.getLast?_reverse,
      List.reverse_reverse]

lemma Queue.pop_snd_toList (q : Queue) : (q.pop).2.toList = q.toList.tail := by
  rcases q with ⟨o, y⟩
  cases o with
  | nil =>
    cases y with
    | nil => rfl
    | cons a ys =>
      simp [Queue.pop, Queue.toList, vecPop, dropLast_reverse_eq]
  | cons b os =>
    simp only [Queue.pop, Queue.toList, vecPop, List.isEmpty_cons]
    rw [if_neg (by simp), tail_append_left (by simp)]
    have h2 := dropLast_reverse_eq (b :: os).reverse
    rw [List.reverse_reverse] at h2
    rw [h2, List.reverse_reverse, List.reverse_cons]

lemma Queue.size_eq_toList_length (q : Queue) : q.size = q.toList.length := by
  simp [Queue.size, Queue.toList, Nat.add_comm]

lemma Queue.drainAux_eq (n : Nat) (q : Queue) (h : q.toList.length ≤ n) :
    Queue.drainAux n q = q.toList := by
  induction n generalizing q with
  | zero =>
    have : q.toList = [] := List.eq_nil_of_length_eq_zero (Nat.le_zero.mp h)
    simp [Queue.drainAux, this]
  | succ n ih =>
    have hfst := q.pop_fst
    have hsnd := q.pop_snd_toList
    cases hl : q.toList with
    | nil =>
      rw [hl] at hfst
      rcases hp : q.pop with ⟨r, q'⟩
      rw [hp] at hfst
      simp at hfst
      subst hfst
      simp only [Queue.drainAux]
      rw [hp]
    | cons c rest =>
      rw [hl] at hfst hsnd
      rcases hp : q.pop with ⟨r, q'⟩
      rw [hp] at hfst hsnd
      simp at hfst hsnd
      subst hfst
      have hrest : rest.length ≤ n := by
        rw [hl] at h
        simpa using Nat.le_of_succ_le_succ h
      simp only [Queue.drainAux]
      rw [hp]
      show c :: Queue.drainAux n q' = c :: rest
      rw [ih q' (by rw [hsnd]; exact hrest), hsnd]

lemma Queue.popN_eq (n : Nat) (q : Queue) (h : n = q.toList.length) :
    (Queue.popN n q).1 = q.toList.map some := by
  induction n generalizing q with
  | zero =>
    have : q.toList = [] := List.eq_nil_of_length_eq_zero h.symm
    simp [Queue.popN, this]
  | succ n ih =>
    have hfst := q.pop_fst
    have hsnd := q.pop_snd_toList
    cases hl : q.toList with
    | nil => rw [hl] at h; simp at h
    | cons c rest =>
      rw [hl] at hfst hsnd
      simp at hfst hsnd
      have hn : n = rest.length := by
        rw [hl] at h
        simpa using h
      simp only [Queue.popN]
      rw [hfst, ih (q.pop).2 (by rw [hsnd]; exact hn), hsnd]
      simp

lemma Queue.pushAll_toList (cs : List Char) (q : Queue) :
    (q.pushAll cs).toList = q.toList ++ cs := by
  induction cs generalizing q with
  | nil => simp [Queue.pushAll]
  | cons c cs ih =>
    simp only [Queue.pushAll]
    rw [ih, Queue.push_toList, List.append_assoc]
    rfl

lemma grayscaleAsserts_eq : grayscaleAsserts = true := by
  unfold grayscaleAsserts image
  rw [List.length_replicate]
  decide

lemma mainAsserts_eq : mainAsserts = true := by
  unfold mainAsserts
  rw [grayscaleAsserts_eq]
  decide

/-! ### Claims -/

/-- C1: FIFO correctness — pushing `p1, …, pn` in order onto a queue
created empty and then performing exactly `n` pops yields `p1, …, pn` in
that order, each pop returning the corresponding value. -/
theorem C1_fifo (ps : List Char) :
    (Queue.popN ps.length (Queue.new.pushAll ps)).1 = ps.map some := by
  have h := Queue.pushAll_toList ps Queue.new
  have hnew : Queue.new.toList = [] := rfl
  rw [hnew, List.nil_append] at h
  have hlen : ps.length = (Queue.new.pushAll ps).toList.length := by rw [h]
  rw [Queue.popN_eq _ _ hlen, h]

/-- C2 counterexample: the state reached from the empty queue by
`push 'a'; push 'b'` is reachable, but its logical contents are
`['a', 'b']` while `older.reverse ++ younger.reverse` is `['b', 'a']` —
the spec's stated invariant fails there. -/
theorem C2_counterexample :
    Queue.Reachable ((Queue.new.push 'a').push 'b') ∧
      ((Queue.new.push 'a').push 'b').logicalContents ≠
        ((Queue.new.push 'a').push 'b').older.reverse ++
          ((Queue.new.push 'a').push 'b').younger.reverse :=
  ⟨Queue.Reachable.push _ 'b' (Queue.Reachable.push _ 'a' Queue.Reachable.new),
    by decide⟩

/-- C2 (amended): for every queue state — in particular every reachable
one, so the property is preserved by push and pop — the logical contents
front-to-back equal `older` reversed followed by `younger` as stored
(not reversed). -/
theorem C2_invariant (q : Queue) :
    q.logicalContents = q.older.reverse ++ q.younger := by
  have h := Queue.drainAux_eq q.size q (Queue.size_eq_toList_length q).ge
  exact h

/-- C3: the `pop` algorithm matches the spec's three-case description:
non-empty `older` pops `older`'s last element; empty `older` with
non-empty `younger` reverses `younger` into `older`, clears `younger` and
pops the new `older`'s last element; both empty returns `none`. -/
theorem C3_pop_algorithm (q : Queue) : q.pop = q.popSpec := by
  rcases q with ⟨o, y⟩
  cases o with
  | nil =>
    cases y with
    | nil => rfl
    | cons a ys => simp [Queue.pop, Queue.popSpec, vecPop]
  | cons b os => simp [Queue.pop, Queue.popSpec, vecPop]

/-- C4: popping the queue whose `older` and `younger` are both empty
returns `none` and leaves the state unchanged. -/
theorem C4_pop_empty (q : Queue) (h1 : q.older = []) (h2 : q.younger = []) :
    q.pop = (none, q) := by
  rcases q with ⟨o, y⟩
  simp only at h1 h2
  subst h1
  subst h2
  rfl

/-- C4 witness: instantiated at `Queue.new`. -/
theorem C4_pop_empty_witness :
    Queue.new.older = [] ∧ Queue.new.younger = [] ∧
      Queue.new.pop = (none, Queue.new) :=
  ⟨rfl, rfl, C4_pop_empty Queue.new rfl rfl⟩

/-- C5: `is_empty` returns `true` iff both `older` and `younger` are
empty; it is `true` on `Queue.new`, `true` after a pop removes the last
remaining element, and `false` immediately after any push. -/
theorem C5_is_empty_correct (q : Queue) :
    (q.is_empty = true ↔ q.older = [] ∧ q.younger = []) ∧
    Queue.new.is_empty = true ∧
    (q.size = 1 → ((q.pop).2).is_empty = true) ∧
    (∀ c, (q.push c).is_empty = false) := by
  refine ⟨?_, rfl, ?_, ?_⟩
  · simp [Queue.is_empty]
  · intro h
    rcases q with ⟨o, y⟩
    cases o with
    | nil =>
      cases y with
      | nil => simp [Queue.size] at h
      | cons a ys =>
        have hy : ys = [] := by
          simp [Queue.size] at h
          exact h
        subst hy
        simp [Queue.pop, vecPop, Queue.is_empty]
    | cons b os =>
      have ho : os.length = 0 ∧ y.length = 0 := by
        simp [Queue.size] at h
        omega
      have ho1 : os = [] := List.eq_nil_of_length_eq_zero ho.1
      have ho2 : y = [] := List.eq_nil_of_length_eq_zero ho.2
      subst ho1
      subst ho2
      simp [Queue.pop, vecPop, Queue.is_empty]
  · intro c
    simp [Queue.push, Queue.is_empty]

/-- C5 witness: the one-element queue `⟨['a'], []⟩` becomes empty after a
pop. -/
theorem C5_is_empty_correct_witness :
    (Queue.mk ['a'] []).size = 1 ∧
      (((Queue.mk ['a'] []).pop).2).is_empty = true :=
  ⟨by decide, (C5_is_empty_correct (Queue.mk ['a'] [])).2.2.1 (by decide)⟩

/-- C6: `new()` returns the empty queue — both fields empty. -/
theorem C6_new_empty : Queue.new.older = [] ∧ Queue.new.younger = [] :=
  ⟨rfl, rfl⟩

/-- C7: `split` returns the two internal sequences exactly as stored,
`older` first and `younger` second, with no reordering or modification. -/
theorem C7_split (q : Queue) : q.split = (q.older, q.younger) :=
  rfl

/-- C8: worked example — from the empty queue, after `push 'P'` and
`push 'D'` the next pop returns `'P'`; after a further `push 'X'`, `split`
returns `(['D'], ['X'])`. -/
theorem C8_worked_example :
    ((((Queue.new.push 'P').push 'D').pop).1 = some 'P') ∧
      (((((Queue.new.push 'P').push 'D').pop).2.push 'X').split
        = (['D'], ['X'])) := by
  decide

/-- C9: the entry point writes exactly `Hello, world!` followed by a
newline to standard output and exits with code 0 — every assertion `main`
executes (GrayscaleMap, Broom/chop, Bounds, both Queue sessions, Extrema)
holds, so nothing else is printed and no panic occurs. -/
theorem C9_main_contract : mainRun = ("Hello, world!\n", 0) := by
  unfold mainRun
  rw [mainAsserts_eq]
  simp

/-- C10: `push` leaves `older` unchanged; its only effect is to append
the value to the end of `younger`. -/
theorem C10_push_frame (q : Queue) (c : Char) :
    (q.push c).older = q.older ∧ (q.push c).younger = q.younger ++ [c] :=
  ⟨rfl, rfl⟩

end RustStructs
